import Mathlib

/-!
Verification of the deepbuffer batch summarization and ingestion pipeline.

Shallow embedding of the core pipeline from the TypeScript sources:
  * `src/api/services/cronService.ts` (batch summarizer, retention sweeper)
  * `src/api/services/aiService.ts` (AI summarization client)
  * `src/api/services/slackService.ts` (source poller)

The persistent store is modelled as in-memory lists of rows; the external
collaborators (AI provider, message provider, write failures) are modelled
as explicit oracle parameters, so every definition is executable.
-/

namespace DeepBuffer

/-! ## Data model (schema of section 6 of the spec) -/

/-- The `meta_data` JSON column of an item, fields written by the poller
(`slackService.ts` insert at lines 225-239). -/
structure Meta where
  user : String
  user_name : String
  user_avatar : String
  channel : String
  channel_name : String
  ts : String
  team : String
deriving Repr, DecidableEq

/-- One row of the `items` table.  `id` is the primary key (a uuid in the
store, modelled as a Nat), `meta` is `none` for rows created without
Slack metadata (web links). -/
structure Item where
  id : Nat
  source_type : String
  content : String
  meta : Option Meta
  status : String
  created_at : Nat
  user_id : Nat
deriving Repr, DecidableEq

/-- One row of the `summaries` table, as inserted by
`runBatchSummarization` (cronService.ts lines 87-93). -/
structure Summary where
  summary_text : String
  target_items : List Nat
  user_id : Nat
deriving Repr, DecidableEq

/-- One row of the `user_settings` table (only the field the pipeline
reads). -/
structure UserSetting where
  user_id : Nat
  report_custom_instructions : Option String
deriving Repr, DecidableEq

/-- The persistent store.  `nextId` models the store-generated primary key
for inserted items. -/
structure DB where
  items : List Item
  summaries : List Summary
  settings : List UserSetting
  nextId : Nat
deriving Repr, DecidableEq

/-- The parsed shape `SummaryResult` of `aiService.ts` (lines 9-12). -/
structure SummaryResult where
  summaryText : String
  keyTopics : List String
deriving Repr, DecidableEq

/-- One entry of `summaryResults` pushed at cronService.ts lines 110-114. -/
structure UserReport where
  userId : Nat
  processed : Nat
  summary : String
deriving Repr, DecidableEq

/-- Return value of `runBatchSummarization` in the configured-client path:
`{count: 0}` when no pending items exist (line 41), otherwise the report
object of lines 117-121 (whose `totalUsersProcessed` is the length of
`details`). -/
inductive BatchOutcome where
  | zeroCount : BatchOutcome
  | report (details : List UserReport) : BatchOutcome
deriving Repr, DecidableEq

/-! ## Batch summarizer (`runBatchSummarization`, cronService.ts 16-122)

External effects are oracles:
  * `ai` models `generateSummary` (returns `none` on failure),
  * `sF u` models whether the `summaries` insert errors for user `u`,
  * `uF u` models whether the items status update errors for user `u`. -/

/-- The per-user fetch of cronService.ts lines 54-59: pending items of the
user, `limit(50)`.  The query requests no ordering, so the store's row
order is used. -/
def fetchBatch (db : DB) (u : Nat) : List Item :=
  (db.items.filter (fun it => it.status == "pending" && it.user_id == u)).take 50

/-- The `user_settings` read of lines 69-75: `.single()` yields a row only
when exactly one row matches; `settings?.report_custom_instructions ||
undefined` maps an empty string to absent. -/
def lookupSettings (db : DB) (u : Nat) : Option String :=
  let rows := db.settings.filter (fun s => s.user_id == u)
  match rows with
  | [s] =>
    match s.report_custom_instructions with
    | some t => if t == "" then none else some t
    | none => none
  | _ => none

/-- Loop body of cronService.ts lines 50-115 for one user: fetch the
batch, skip if empty, call the AI client, skip on failure, insert the
summary row, skip on insert error, update the items' status (logging but
not undoing on update error), and push the per-user report. -/
def processUser (ai : List String → Option String → Option SummaryResult)
    (sF uF : Nat → Bool) (db : DB) (u : Nat) : DB × Option UserReport :=
  let items := fetchBatch db u
  if items.isEmpty then (db, none)
  else
    let messages := items.map (fun it => it.content)
    let customInstructions := lookupSettings db u
    match ai messages customInstructions with
    | none => (db, none)
    | some result =>
      let itemIds := items.map (fun it => it.id)
      if sF u then (db, none)
      else
        let db1 : DB := { db with summaries := db.summaries ++ [⟨result.summaryText, itemIds, u⟩] }
        let db2 : DB :=
          if uF u then db1
          else { db1 with items := db1.items.map (fun it =>
                   if itemIds.contains it.id then { it with status := "summarized" } else it) }
        (db2, some ⟨u, items.length, result.summaryText⟩)

/-- The `for (const userId of userIds)` loop of cronService.ts lines
50-115, threading the store state and collecting `summaryResults`. -/
def runUsers (ai : List String → Option String → Option SummaryResult)
    (sF uF : Nat → Bool) : List Nat → DB → DB × List UserReport
  | [], db => (db, [])
  | u :: rest, db =>
    let p := processUser ai sF uF db u
    let r := runUsers ai sF uF rest p.1
    (r.1, (match p.2 with | some rep => [rep] | none => []) ++ r.2)

/-- Insertion into a list sorted ascending, used to model the
`.order('user_id')` of the users query (cronService.ts line 32). -/
def insertSorted (a : Nat) : List Nat → List Nat
  | [] => [a]
  | b :: bs => if a ≤ b then a :: b :: bs else b :: insertSorted a bs

/-- Ascending sort by user id, modelling `.order('user_id')`. -/
def sortNats : List Nat → List Nat
  | [] => []
  | a :: as => insertSorted a (sortNats as)

/-- `[...new Set(xs)]` (cronService.ts line 45): deduplicate keeping the
first occurrence of each element. -/
def dedupFirst : List Nat → List Nat
  | [] => []
  | a :: as => a :: (dedupFirst as).filter (fun b => b ≠ a)

/-! ## Retention sweeper (`runRetentionPolicy`, cronService.ts 125-150) -/

/-- The delete condition of cronService.ts lines 135-140: created before
the threshold, status in `{archived, done, summarized}`, and source kind
not `web`. -/
def shouldDelete (threshold : Nat) (it : Item) : Bool :=
  decide (it.created_at < threshold)
    && (["archived", "done", "summarized"].contains it.status)
    && (it.source_type != "web")

/-- Result of one retention run: the store afterwards, the `count`
reported by the delete and logged at line 145, and the value the function
returns to its caller.  `runRetentionPolicy` has no return statement on
any path, so `returned` is always `none` (undefined). -/
structure RetentionRun where
  after : DB
  loggedCount : Nat
  returned : Option Nat
deriving Repr, DecidableEq

/-- `runRetentionPolicy` (cronService.ts lines 125-150).  The threshold is
`now` minus 7 days (lines 131-132, timestamps in seconds). -/
def runRetentionPolicy (now : Nat) (db : DB) : RetentionRun :=
  let threshold := now - 7 * 86400
  { after := { db with items := db.items.filter (fun it => !(shouldDelete threshold it)) }
    loggedCount := (db.items.filter (fun it => shouldDelete threshold it)).length
    returned := none }

/-! ## AI summarization client (`aiService.ts`)

The provider is an oracle.  `generateSummary` (lines 14-62) checks the
credential, calls the provider, and runs `JSON.parse` on
`response.choices[0].message.content`; the TypeScript `as SummaryResult`
cast performs no runtime validation, so the parsed JSON value is returned
as-is.  Each client function also reports whether it performed network
I/O. -/

/-- A JSON value, the possible results of `JSON.parse`. -/
inductive Js where
  | null : Js
  | bool (b : Bool) : Js
  | num (n : Int) : Js
  | str (s : String) : Js
  | arr (xs : List Js) : Js
  | obj (fields : List (String × Js)) : Js
deriving Repr

/-- Outcome of one chat-completions call: the fetch throws, the content
field is null, the content text is not valid JSON (`JSON.parse` throws),
or it parses to a JSON value. -/
inductive AiResponse where
  | fetchError : AiResponse
  | noContent : AiResponse
  | badJson : AiResponse
  | json (j : Js) : AiResponse
deriving Repr

/-- `generateSummary` (aiService.ts lines 14-62): with no API key, fail
immediately without network I/O (lines 15-18); otherwise call the
provider; a thrown fetch, null content, or a `JSON.parse` failure yields
`null` (lines 54-61); a parsed JSON value is returned unvalidated (line
57).  Returns (result, whether network I/O was performed). -/
def generateSummary (apiKey : Option String) (provider : AiResponse)
    (messages : List String) (customInstructions : Option String) : Option Js × Bool :=
  match apiKey, messages, customInstructions with
  | none, _, _ => (none, false)
  | some _, _, _ =>
    match provider with
    | .fetchError => (none, true)
    | .noContent => (none, true)
    | .badJson => (none, true)
    | .json j => (some j, true)

/-- `generateReplyDraft` (aiService.ts lines 64-92): no key means
immediate failure without I/O; otherwise the provider's content string or
`null` (`content || null`, an empty string is also `null`). -/
def generateReplyDraft (apiKey : Option String) (content : Option String)
    (originalMessage tone : String) : Option String × Bool :=
  match apiKey, originalMessage, tone with
  | none, _, _ => (none, false)
  | some _, _, _ =>
    match content with
    | none => (none, true)
    | some t => (if t == "" then none else some t, true)

/-- `askAboutSummary` (aiService.ts lines 94-125): same shape as
`generateReplyDraft`. -/
def askAboutSummary (apiKey : Option String) (content : Option String)
    (summaryContext question : String) : Option String × Bool :=
  match apiKey, summaryContext, question with
  | none, _, _ => (none, false)
  | some _, _, _ =>
    match content with
    | none => (none, true)
    | some t => (if t == "" then none else some t, true)

/-- Modelled from the spec: the fixed two-field structure the client's
output "must be parseable as" (spec section 4.1) — an object with a string
`summaryText` field and a `keyTopics` array of strings.  The source
performs no such check; this definition exists only to compare the spec's
words with the code's behavior. -/
def specSummaryShape (j : Js) : Bool :=
  match j with
  | .obj fields =>
    (fields.any (fun f => f.1 == "summaryText" && (match f.2 with | .str _ => true | _ => false)))
      && (fields.any (fun f => f.1 == "keyTopics"
            && (match f.2 with | .arr xs => xs.all (fun x => match x with | .str _ => true | _ => false) | _ => false)))
  | _ => false

/-! ## Source poller (`fetchSlackMessages`, slackService.ts 87-254)

The message provider is an oracle per workspace: the user directory, the
channel-list pagination responses (indexed by request number within the
pagination loop), and the per-channel history response. -/

/-- One entry of the user directory built from `users.list`
(slackService.ts lines 119-134). -/
structure SlackUser where
  id : String
  name : String
  avatar : String
  is_bot : Bool
deriving Repr, DecidableEq

/-- One message of a `conversations.history` response.  `user` is `none`
when the field is missing or empty (falsy). -/
structure Msg where
  user : Option String
  text : String
  ts : String
  subtype : Option String
  bot_id : Option String
deriving Repr, DecidableEq

/-- One channel of a `conversations.list` response. -/
structure Channel where
  id : String
  name : Option String
  is_archived : Bool
deriving Repr, DecidableEq

/-- Provider response to one `conversations.list` request: HTTP 429 with
an optional Retry-After header, a thrown fetch, a non-ok payload, or a
page of channels with an optional (truthy) next cursor. -/
inductive ChanResp where
  | rateLimited (retryAfter : Option Nat) : ChanResp
  | httpError : ChanResp
  | notOk : ChanResp
  | ok (channels : List Channel) (next_cursor : Option String) : ChanResp
deriving Repr

/-- Backoff time on a 429 (slackService.ts line 150): the Retry-After
header times 1000, or a 2000 ms fallback. -/
def waitTimeOf : Option Nat → Nat
  | some s => s * 1000
  | none => 2000

/-- The `while (true)` channel pagination loop (slackService.ts lines
140-176), run with explicit fuel: `resp k` is the provider's response to
the k-th request of this loop.  On 429 the code sleeps `waitTimeOf` and
`continue`s, re-issuing the request with the same cursor; a thrown fetch
or a non-ok payload breaks; an ok page is appended and the loop follows
the next cursor (sleeping 100 ms) or breaks when it is absent.  Returns
(`some` accumulated channels if the loop exited within `fuel` iterations,
`none` if it was still running, and the log of sleeps performed). -/
def paginateChannels (resp : Nat → ChanResp) :
    Nat → Nat → Option String → List Channel → List Nat → Option (List Channel) × List Nat
  | 0, _, _, _, sleeps => (none, sleeps)
  | fuel + 1, k, cursor, acc, sleeps =>
    match resp k with
    | .rateLimited ra => paginateChannels resp fuel (k + 1) cursor acc (sleeps ++ [waitTimeOf ra])
    | .httpError => (some acc, sleeps)
    | .notOk => (some acc, sleeps)
    | .ok chans next =>
      match next with
      | none => (some (acc ++ chans), sleeps)
      | some c => paginateChannels resp fuel (k + 1) (some c) (acc ++ chans) (sleeps ++ [100])

/-- Whether an item matches the deduplication query of slackService.ts
lines 217-222: `meta_data->>ts` equals the message timestamp and
`meta_data->>channel` equals the channel id. -/
def keyMatches (chanId ts : String) (it : Item) : Bool :=
  match it.meta with
  | some m => m.channel == chanId && m.ts == ts
  | none => false

/-- The (channel id, source timestamp) deduplication key of an item, when
it has Slack metadata. -/
def keyOf (it : Item) : Option (String × String) :=
  match it.meta with
  | some m => some (m.channel, m.ts)
  | none => none

/-- Number of stored items matching a deduplication key. -/
def countKey (db : DB) (chanId ts : String) : Nat :=
  (db.items.filter (keyMatches chanId ts)).length

/-- The message filters of slackService.ts lines 207-211: skip messages
with a subtype, without a (truthy) author, with an inline bot marker, or
whose author the directory flags as a bot. -/
def accepts (um : List SlackUser) (msg : Msg) : Bool :=
  !msg.subtype.isSome && msg.user.isSome && !msg.bot_id.isSome
    && !(match msg.user.bind (fun mu => um.find? (fun su => su.id == mu)) with
         | some su => su.is_bot
         | none => false)

/-- The item row the poller inserts for an accepted message
(slackService.ts lines 225-239): source kind `slack`, pending status, the
workspace's owning user, and the full metadata object with the author
resolved from the directory (falling back to the raw id). -/
def newItemOf (um : List SlackUser) (teamId : String) (wsUser now : Nat)
    (ch : Channel) (db : DB) (msg : Msg) : Item :=
  let mu := msg.user.getD ""
  let uinfo := um.find? (fun su => su.id == mu)
  { id := db.nextId
    source_type := "slack"
    content := msg.text
    meta := some ⟨mu,
                  (match uinfo with | some su => su.name | none => mu),
                  (match uinfo with | some su => su.avatar | none => ""),
                  ch.id, ch.name.getD "DM", msg.ts, teamId⟩
    status := "pending"
    created_at := now
    user_id := wsUser }

/-- Loop body of slackService.ts lines 205-242 for one message: apply the
filters, run the check-then-insert deduplication (`.single()` finds a row
exactly when one row matches), and insert a new pending item if none was
found. -/
def processMessage (um : List SlackUser) (teamId : String) (wsUser : Nat) (now : Nat)
    (ch : Channel) (db : DB) (msg : Msg) : DB :=
  if msg.subtype.isSome then db
  else
    match msg.user with
    | none => db
    | some mu =>
      if msg.bot_id.isSome then db
      else
        let uinfo := um.find? (fun su => su.id == mu)
        if (match uinfo with | some su => su.is_bot | none => false) then db
        else
          if countKey db ch.id msg.ts == 1 then db
          else
            { db with
              items := db.items ++ [newItemOf um teamId wsUser now ch db msg]
              nextId := db.nextId + 1 }

/-- The `for (const msg of messages)` loop over one channel's history
response (slackService.ts lines 205-242). -/
def processChannelMessages (um : List SlackUser) (teamId : String) (wsUser : Nat) (now : Nat)
    (ch : Channel) (db : DB) (msgs : List Msg) : DB :=
  msgs.foldl (processMessage um teamId wsUser now ch) db

/-- Provider response to one `conversations.history` request: HTTP 429
(the code sleeps and skips the channel), a non-ok payload (skipped), or a
page of messages. -/
inductive HistResp where
  | rateLimited : HistResp
  | notOk : HistResp
  | ok (messages : List Msg) : HistResp
deriving Repr

/-- One row of the `workspaces` table (the fields the poller reads).
`access_token` is `none` when the token is absent (falsy). -/
structure Workspace where
  team_id : String
  access_token : Option String
  user_id : Nat
deriving Repr, DecidableEq

/-- Provider behavior for one workspace's token: the `users.list`
directory, the channel pagination responses, and each channel's history
response. -/
structure WsEnv where
  usersList : List SlackUser
  chanResp : Nat → ChanResp
  history : String → HistResp

/-- The whole provider environment for one poll: the `workspaces` rows
with each one's provider behavior, and the store's clock for `created_at`
of inserted rows. -/
structure PollEnv where
  workspaces : List (Workspace × WsEnv)
  now : Nat

/-- Poll of one workspace (slackService.ts lines 109-247): skip without a
token; build the user directory; paginate the channel list (`none` if the
pagination loop was still running after `fuel` iterations); then for each
non-archived channel fetch history — a 429 or non-ok response skips the
channel — and process its messages. -/
def pollWorkspace (fuel : Nat) (now : Nat) (ws : Workspace) (we : WsEnv) (db : DB) : Option DB :=
  match ws.access_token with
  | none => some db
  | some _ =>
    let um := we.usersList
    match (paginateChannels we.chanResp fuel 0 none [] []).1 with
    | none => none
    | some channels =>
      some (channels.foldl (fun db ch =>
        if ch.is_archived then db
        else
          match we.history ch.id with
          | .rateLimited => db
          | .notOk => db
          | .ok msgs => processChannelMessages um ws.team_id ws.user_id now ch db msgs) db)

/-- The workspace loop of `fetchSlackMessages` (slackService.ts lines
109-247); `none` when some workspace's pagination loop never exited. -/
def pollAll (fuel : Nat) (now : Nat) : List (Workspace × WsEnv) → DB → Option DB
  | [], db => some db
  | (ws, we) :: rest, db =>
    match pollWorkspace fuel now ws we db with
    | none => none
    | some db1 => pollAll fuel now rest db1

/-- `fetchSlackMessages` (slackService.ts lines 87-254): iterate all
workspace rows, polling each. -/
def fetchSlackMessages (env : PollEnv) (fuel : Nat) (db : DB) : Option DB :=
  pollAll fuel env.now env.workspaces db

/-! ## Top-level batch entry point (`runBatchSummarization`) -/

/-- `runBatchSummarization` (cronService.ts lines 16-122), in the
configured-client path: poll Slack first (line 24); query the user ids of
pending items (lines 28-32, ordered by user id); return `{count: 0}` when
there are none (lines 39-42); otherwise deduplicate the user ids (line
45) and run the per-user loop.  `none` models a poll that never returned
(hung pagination). -/
def runBatchSummarization (env : PollEnv) (fuel : Nat)
    (ai : List String → Option String → Option SummaryResult)
    (sF uF : Nat → Bool) (db : DB) : Option (DB × BatchOutcome) :=
  match fetchSlackMessages env fuel db with
  | none => none
  | some db0 =>
    let rows := (db0.items.filter (fun it => it.status == "pending")).map (fun it => it.user_id)
    if rows.isEmpty then some (db0, .zeroCount)
    else
      let userIds := dedupFirst (sortNats rows)
      let r := runUsers ai sF uF userIds db0
      some (r.1, .report r.2)

/-- The pending items of one user, in store order (the rows the per-user
fetch draws from). -/
def pendingOf (db : DB) (u : Nat) : List Item :=
  db.items.filter (fun it => it.status == "pending" && it.user_id == u)

/-- The rows of one user, in store order. -/
def userItems (db : DB) (u : Nat) : List Item :=
  db.items.filter (fun it => it.user_id == u)

/-- The summaries of one user, in store order. -/
def userSummaries (db : DB) (u : Nat) : List Summary :=
  db.summaries.filter (fun s => s.user_id == u)

/-- Primary-key invariant of the `items` table: ids are pairwise
distinct. -/
def IdsNodup (db : DB) : Prop :=
  (db.items.map (fun it => it.id)).Nodup

instance (db : DB) : Decidable (IdsNodup db) := by
  unfold IdsNodup
  infer_instance

/-- Deduplication invariant of section 3 of the spec: no two items share
the same (channel id, source timestamp) metadata pair. -/
def KeysUnique (db : DB) : Prop :=
  (db.items.filterMap keyOf).Nodup

instance (db : DB) : Decidable (KeysUnique db) := by
  unfold KeysUnique
  infer_instance

/-! ## Intermediate views of the per-user step

These three definitions name the three effects of `processUser` (the
summary rows appended, the item ids whose status is set, and the report
entry pushed), so that the loop lemmas can be stated equationally.  They
mirror the branch structure of cronService.ts lines 61-114 exactly. -/

/-- The item ids whose status the per-user step sets to `summarized`
(empty on any skip and when the status update errors). -/
def updatedIds (ai : List String → Option String → Option SummaryResult)
    (sF uF : Nat → Bool) (db : DB) (u : Nat) : List Nat :=
  if (fetchBatch db u).isEmpty then []
  else
    match ai ((fetchBatch db u).map (fun it => it.content)) (lookupSettings db u) with
    | none => []
    | some _ =>
      if sF u then [] else if uF u then [] else (fetchBatch db u).map (fun it => it.id)

/-- The summary rows the per-user step appends (at most one). -/
def stepDelta (ai : List String → Option String → Option SummaryResult)
    (sF : Nat → Bool) (db : DB) (u : Nat) : List Summary :=
  if (fetchBatch db u).isEmpty then []
  else
    match ai ((fetchBatch db u).map (fun it => it.content)) (lookupSettings db u) with
    | none => []
    | some res =>
      if sF u then [] else [⟨res.summaryText, (fetchBatch db u).map (fun it => it.id), u⟩]

/-- The report entry the per-user step pushes, if any. -/
def stepReport (ai : List String → Option String → Option SummaryResult)
    (sF : Nat → Bool) (db : DB) (u : Nat) : Option UserReport :=
  if (fetchBatch db u).isEmpty then none
  else
    match ai ((fetchBatch db u).map (fun it => it.content)) (lookupSettings db u) with
    | none => none
    | some res => if sF u then none else some ⟨u, (fetchBatch db u).length, res.summaryText⟩

/-- The per-item transform the per-user step applies to the whole items
table (the status update scoped by the batch ids). -/
def stepMark (ai : List String → Option String → Option SummaryResult)
    (sF uF : Nat → Bool) (db : DB) (u : Nat) : Item → Item :=
  fun it =>
    if (updatedIds ai sF uF db u).contains it.id then { it with status := "summarized" } else it

/-! ## Concrete fixtures for witnesses and counterexamples -/

/-- An empty store. -/
def emptyDb : DB := ⟨[], [], [], 0⟩

/-- Scenario store of spec section 8: three pending items for user 7, and
a processed item of user 8 (who has nothing pending). -/
def exDb : DB :=
  ⟨[⟨1, "slack", "deploy failed", none, "pending", 10, 7⟩,
    ⟨2, "slack", "lunch plans", none, "pending", 11, 7⟩,
    ⟨3, "slack", "contract signed", none, "pending", 12, 7⟩,
    ⟨4, "web", "old link", none, "done", 0, 8⟩], [], [], 5⟩

/-- Store for the retention scenarios: a deletable processed Slack item,
a protected web item, and an old pending item. -/
def exRetDb : DB :=
  ⟨[⟨1, "slack", "done msg", none, "done", 0, 7⟩,
    ⟨2, "web", "saved link", none, "done", 0, 7⟩,
    ⟨3, "slack", "old backlog", none, "pending", 0, 7⟩], [], [], 4⟩

/-- Store whose row order is not creation order: user 7's newer pending
item is stored before the older one. -/
def exDb9 : DB :=
  ⟨[⟨1, "slack", "newer", none, "pending", 100, 7⟩,
    ⟨2, "slack", "older", none, "pending", 50, 7⟩], [], [], 3⟩

/-! ## Lemmas: generic list facts -/

theorem filter_comm_items (l : List Item) (u : Nat) :
    l.filter (fun it => it.status == "pending" && it.user_id == u)
      = (l.filter (fun it => it.user_id == u)).filter (fun it => it.status == "pending") := by
  rw [List.filter_filter]

theorem map_ite_nil (l : List Item) :
    (l.map (fun it =>
      if ([] : List Nat).contains it.id then { it with status := "summarized" } else it)) = l := by
  induction l with
  | nil => rfl
  | cons a l ih => simp [ih]

/-! ## Lemmas: the per-user step -/

theorem processUser_eq (ai : List String → Option String → Option SummaryResult)
    (sF uF : Nat → Bool) (db : DB) (u : Nat) :
    processUser ai sF uF db u =
      ({ db with
          items := db.items.map (stepMark ai sF uF db u)
          summaries := db.summaries ++ stepDelta ai sF db u },
        stepReport ai sF db u) := by
  unfold processUser stepMark updatedIds stepDelta stepReport
  cases he : (fetchBatch db u).isEmpty with
  | true => simp [he, map_ite_nil]
  | false =>
    cases hai : ai ((fetchBatch db u).map (fun it => it.content)) (lookupSettings db u) with
    | none => simp [he, hai, map_ite_nil]
    | some res =>
      cases hs : sF u with
      | true => simp [he, hai, hs, map_ite_nil]
      | false =>
        cases hu : uF u with
        | true => simp [he, hai, hs, hu, map_ite_nil]
        | false => simp [he, hai, hs, hu]

theorem stepMark_id (ai : List String → Option String → Option SummaryResult)
    (sF uF : Nat → Bool) (db : DB) (u : Nat) (it : Item) :
    (stepMark ai sF uF db u it).id = it.id := by
  unfold stepMark
  split <;> rfl

theorem stepMark_user (ai : List String → Option String → Option SummaryResult)
    (sF uF : Nat → Bool) (db : DB) (u : Nat) (it : Item) :
    (stepMark ai sF uF db u it).user_id = it.user_id := by
  unfold stepMark
  split <;> rfl

theorem processUser_settings (ai : List String → Option String → Option SummaryResult)
    (sF uF : Nat → Bool) (db : DB) (u : Nat) :
    (processUser ai sF uF db u).1.settings = db.settings := by
  rw [processUser_eq]

theorem processUser_ids (ai : List String → Option String → Option SummaryResult)
    (sF uF : Nat → Bool) (db : DB) (u : Nat) :
    (processUser ai sF uF db u).1.items.map (fun it => it.id) = db.items.map (fun it => it.id) := by
  rw [processUser_eq]
  show (db.items.map (stepMark ai sF uF db u)).map (fun it => it.id) = _
  rw [List.map_map]
  exact List.map_congr_left (fun a _ => stepMark_id ai sF uF db u a)

theorem processUser_idsNodup (ai : List String → Option String → Option SummaryResult)
    (sF uF : Nat → Bool) (db : DB) (u : Nat) (h : IdsNodup db) :
    IdsNodup (processUser ai sF uF db u).1 := by
  unfold IdsNodup at *
  rw [processUser_ids]
  exact h

theorem mem_fetchBatch (db : DB) (u : Nat) (it : Item) (h : it ∈ fetchBatch db u) :
    it ∈ db.items ∧ it.status = "pending" ∧ it.user_id = u := by
  unfold fetchBatch at h
  have h2 := List.mem_of_mem_take h
  rw [List.mem_filter] at h2
  refine ⟨h2.1, ?_, ?_⟩
  · have := h2.2
    simp only [Bool.and_eq_true, beq_iff_eq] at this
    exact this.1
  · have := h2.2
    simp only [Bool.and_eq_true, beq_iff_eq] at this
    exact this.2

theorem updatedIds_sub (ai : List String → Option String → Option SummaryResult)
    (sF uF : Nat → Bool) (db : DB) (u : Nat) (x : Nat)
    (h : x ∈ updatedIds ai sF uF db u) : ∃ it ∈ fetchBatch db u, it.id = x := by
  unfold updatedIds at h
  split at h
  · cases h
  · split at h
    · cases h
    · split at h
      · cases h
      · split at h
        · cases h
        · rcases List.mem_map.mp h with ⟨it, hit, hid⟩
          exact ⟨it, hit, hid⟩

theorem stepDelta_user (ai : List String → Option String → Option SummaryResult)
    (sF : Nat → Bool) (db : DB) (u : Nat) (s : Summary) (h : s ∈ stepDelta ai sF db u) :
    s.user_id = u := by
  unfold stepDelta at h
  split at h
  · cases h
  · split at h
    · cases h
    · split at h
      · cases h
      · simp only [List.mem_singleton] at h
        subst h
        rfl

theorem stepReport_user (ai : List String → Option String → Option SummaryResult)
    (sF : Nat → Bool) (db : DB) (u : Nat) (r : UserReport) (h : stepReport ai sF db u = some r) :
    r.userId = u := by
  unfold stepReport at h
  split at h
  · cases h
  · split at h
    · cases h
    · split at h
      · cases h
      · cases h
        rfl

theorem processUser_report (ai : List String → Option String → Option SummaryResult)
    (sF uF : Nat → Bool) (db : DB) (u : Nat) :
    (processUser ai sF uF db u).2 = stepReport ai sF db u := by
  rw [processUser_eq]

theorem filter_map_user (l : List Item) (f : Item → Item) (v : Nat)
    (hf : ∀ it, (f it).user_id = it.user_id) :
    (l.map f).filter (fun it => it.user_id == v)
      = (l.filter (fun it => it.user_id == v)).map f := by
  induction l with
  | nil => rfl
  | cons a l ih =>
    simp only [List.map_cons, List.filter_cons, hf a]
    cases ha : (a.user_id == v) <;> simp [ha, ih]

theorem userItems_processUser (ai : List String → Option String → Option SummaryResult)
    (sF uF : Nat → Bool) (db : DB) (u v : Nat) :
    userItems (processUser ai sF uF db u).1 v
      = (userItems db v).map (stepMark ai sF uF db u) := by
  rw [processUser_eq]
  exact filter_map_user db.items _ v (stepMark_user ai sF uF db u)

theorem userSummaries_processUser (ai : List String → Option String → Option SummaryResult)
    (sF uF : Nat → Bool) (db : DB) (u v : Nat) :
    userSummaries (processUser ai sF uF db u).1 v
      = userSummaries db v ++ (stepDelta ai sF db u).filter (fun s => s.user_id == v) := by
  rw [processUser_eq]
  unfold userSummaries
  exact List.filter_append db.summaries (stepDelta ai sF db u)

theorem stepMark_fix (ai : List String → Option String → Option SummaryResult)
    (sF uF : Nat → Bool) (db : DB) (u : Nat) (x : Item) (hids : IdsNodup db)
    (hx : x ∈ db.items) (hxu : x.user_id ≠ u) :
    stepMark ai sF uF db u x = x := by
  unfold stepMark
  cases hc : (updatedIds ai sF uF db u).contains x.id with
  | false => simp
  | true =>
    exfalso
    have hmem : x.id ∈ updatedIds ai sF uF db u := by simpa using hc
    rcases updatedIds_sub ai sF uF db u x.id hmem with ⟨y, hy, hyid⟩
    rcases mem_fetchBatch db u y hy with ⟨hyItems, _, hyu⟩
    have hxy : x = y := List.inj_on_of_nodup_map hids hx hyItems hyid.symm
    exact hxu (hxy ▸ hyu)

theorem processUser_frame (ai : List String → Option String → Option SummaryResult)
    (sF uF : Nat → Bool) (db : DB) (u v : Nat) (hids : IdsNodup db) (huv : u ≠ v) :
    userItems (processUser ai sF uF db v).1 u = userItems db u
    ∧ userSummaries (processUser ai sF uF db v).1 u = userSummaries db u := by
  constructor
  · rw [userItems_processUser]
    have hfix : ∀ x ∈ userItems db u, stepMark ai sF uF db v x = x := by
      intro x hx
      unfold userItems at hx
      rw [List.mem_filter] at hx
      have hxu : x.user_id = u := by simpa using hx.2
      exact stepMark_fix ai sF uF db v x hids hx.1 (hxu ▸ huv)
    rw [List.map_congr_left hfix, List.map_id']
  · rw [userSummaries_processUser]
    have hnil : (stepDelta ai sF db v).filter (fun s => s.user_id == u) = [] := by
      rw [List.filter_eq_nil_iff]
      intro s hs
      have := stepDelta_user ai sF db v s hs
      simp [this, Ne.symm huv]
    rw [hnil, List.append_nil]

theorem runUsers_cons (ai : List String → Option String → Option SummaryResult)
    (sF uF : Nat → Bool) (u : Nat) (rest : List Nat) (db : DB) :
    runUsers ai sF uF (u :: rest) db =
      ((runUsers ai sF uF rest (processUser ai sF uF db u).1).1,
        (match (processUser ai sF uF db u).2 with | some rep => [rep] | none => []) ++
          (runUsers ai sF uF rest (processUser ai sF uF db u).1).2) := rfl

theorem runUsers_frame (ai : List String → Option String → Option SummaryResult)
    (sF uF : Nat → Bool) (u : Nat) (L : List Nat) :
    ∀ db : DB, IdsNodup db → u ∉ L →
      userItems (runUsers ai sF uF L db).1 u = userItems db u
      ∧ userSummaries (runUsers ai sF uF L db).1 u = userSummaries db u
      ∧ (runUsers ai sF uF L db).1.settings = db.settings
      ∧ IdsNodup (runUsers ai sF uF L db).1
      ∧ ∀ r ∈ (runUsers ai sF uF L db).2, r.userId ≠ u := by
  induction L with
  | nil =>
    intro db hids _
    exact ⟨rfl, rfl, rfl, hids, fun r hr => absurd hr (List.not_mem_nil r)⟩
  | cons v rest ih =>
    intro db hids hu
    have hu2 : u ≠ v ∧ u ∉ rest := by
      simp [List.mem_cons] at hu
      exact hu
    have hframe := processUser_frame ai sF uF db u v hids hu2.1
    have hids1 := processUser_idsNodup ai sF uF db v hids
    obtain ⟨hI, hS, hSet, hN, hR⟩ := ih (processUser ai sF uF db v).1 hids1 hu2.2
    rw [runUsers_cons]
    refine ⟨?_, ?_, ?_, hN, ?_⟩
    · rw [hI, hframe.1]
    · rw [hS, hframe.2]
    · rw [hSet, processUser_settings]
    · intro r hr
      rcases List.mem_append.mp hr with hr | hr
      · cases hp : (processUser ai sF uF db v).2 with
        | none => rw [hp] at hr; cases hr
        | some rep =>
          rw [hp] at hr
          have hrrep : r = rep := List.mem_singleton.mp hr
          rw [processUser_report] at hp
          have := stepReport_user ai sF db v rep hp
          rw [hrrep, this]
          exact Ne.symm hu2.1
      · exact hR r hr

theorem fetchBatch_eq_filter (db : DB) (u : Nat) :
    fetchBatch db u = ((userItems db u).filter (fun it => it.status == "pending")).take 50 := by
  unfold fetchBatch userItems
  rw [List.filter_filter]

theorem fetchBatch_congr (db1 db2 : DB) (u : Nat) (h : userItems db1 u = userItems db2 u) :
    fetchBatch db1 u = fetchBatch db2 u := by
  rw [fetchBatch_eq_filter, fetchBatch_eq_filter, h]

theorem lookupSettings_congr (db1 db2 : DB) (u : Nat) (h : db1.settings = db2.settings) :
    lookupSettings db1 u = lookupSettings db2 u := by
  unfold lookupSettings
  rw [h]

theorem updatedIds_congr (ai : List String → Option String → Option SummaryResult)
    (sF uF : Nat → Bool) (db1 db2 : DB) (u : Nat)
    (h1 : userItems db1 u = userItems db2 u) (h2 : db1.settings = db2.settings) :
    updatedIds ai sF uF db1 u = updatedIds ai sF uF db2 u := by
  unfold updatedIds
  rw [fetchBatch_congr db1 db2 u h1, lookupSettings_congr db1 db2 u h2]

theorem stepDelta_congr (ai : List String → Option String → Option SummaryResult)
    (sF : Nat → Bool) (db1 db2 : DB) (u : Nat)
    (h1 : userItems db1 u = userItems db2 u) (h2 : db1.settings = db2.settings) :
    stepDelta ai sF db1 u = stepDelta ai sF db2 u := by
  unfold stepDelta
  rw [fetchBatch_congr db1 db2 u h1, lookupSettings_congr db1 db2 u h2]

theorem stepReport_congr (ai : List String → Option String → Option SummaryResult)
    (sF : Nat → Bool) (db1 db2 : DB) (u : Nat)
    (h1 : userItems db1 u = userItems db2 u) (h2 : db1.settings = db2.settings) :
    stepReport ai sF db1 u = stepReport ai sF db2 u := by
  unfold stepReport
  rw [fetchBatch_congr db1 db2 u h1, lookupSettings_congr db1 db2 u h2]

theorem stepMark_congr (ai : List String → Option String → Option SummaryResult)
    (sF uF : Nat → Bool) (db1 db2 : DB) (u : Nat)
    (h1 : userItems db1 u = userItems db2 u) (h2 : db1.settings = db2.settings) :
    stepMark ai sF uF db1 u = stepMark ai sF uF db2 u := by
  funext it
  unfold stepMark
  rw [updatedIds_congr ai sF uF db1 db2 u h1 h2]

theorem runUsers_mem (ai : List String → Option String → Option SummaryResult)
    (sF uF : Nat → Bool) (u : Nat) (L : List Nat) :
    ∀ db : DB, IdsNodup db → L.Nodup → u ∈ L →
      userItems (runUsers ai sF uF L db).1 u = (userItems db u).map (stepMark ai sF uF db u)
      ∧ userSummaries (runUsers ai sF uF L db).1 u
          = userSummaries db u ++ (stepDelta ai sF db u).filter (fun s => s.user_id == u)
      ∧ (∀ r, stepReport ai sF db u = some r → r ∈ (runUsers ai sF uF L db).2)
      ∧ (stepReport ai sF db u = none →
          ∀ r ∈ (runUsers ai sF uF L db).2, r.userId ≠ u) := by
  induction L with
  | nil => intro db _ _ hu; cases hu
  | cons v rest ih =>
    intro db hids hnd hu
    rw [runUsers_cons]
    have hids1 := processUser_idsNodup ai sF uF db v hids
    by_cases hv : v = u
    · subst hv
      have hvr : v ∉ rest := (List.nodup_cons.mp hnd).1
      obtain ⟨fI, fS, _, _, fR⟩ :=
        runUsers_frame ai sF uF v rest (processUser ai sF uF db v).1 hids1 hvr
      refine ⟨?_, ?_, ?_, ?_⟩
      · rw [fI, userItems_processUser]
      · rw [fS, userSummaries_processUser]
      · intro r hr
        rw [processUser_report, hr]
        exact List.mem_append_left _ (List.mem_singleton.mpr rfl)
      · intro hnone r hr
        rw [processUser_report, hnone, List.nil_append] at hr
        exact fR r hr
    · have hu2 : u ∈ rest := by
        rcases List.mem_cons.mp hu with h | h
        · exact absurd h.symm hv
        · exact h
      have hframe := processUser_frame ai sF uF db u v hids (fun h => hv h.symm)
      have hset : (processUser ai sF uF db v).1.settings = db.settings :=
        processUser_settings ai sF uF db v
      obtain ⟨gI, gS, gSome, gNone⟩ :=
        ih (processUser ai sF uF db v).1 hids1 (List.nodup_cons.mp hnd).2 hu2
      refine ⟨?_, ?_, ?_, ?_⟩
      · rw [gI, hframe.1, stepMark_congr ai sF uF _ db u hframe.1 hset]
      · rw [gS, hframe.2, stepDelta_congr ai sF _ db u hframe.1 hset]
      · intro r hr
        have := gSome r (by rw [stepReport_congr ai sF _ db u hframe.1 hset]; exact hr)
        exact List.mem_append_right _ this
      · intro hnone r hr
        rcases List.mem_append.mp hr with hr | hr
        · cases hp : (processUser ai sF uF db v).2 with
          | none => rw [hp] at hr; cases hr
          | some rep =>
            rw [hp] at hr
            rw [processUser_report] at hp
            have hrid := stepReport_user ai sF db v rep hp
            rw [List.mem_singleton.mp hr, hrid]
            exact hv
        · exact gNone (by rw [stepReport_congr ai sF _ db u hframe.1 hset]; exact hnone) r hr

/-! ## Lemmas: user-id sorting and deduplication -/

theorem mem_insertSorted (a x : Nat) (l : List Nat) :
    x ∈ insertSorted a l ↔ x = a ∨ x ∈ l := by
  induction l with
  | nil => simp [insertSorted]
  | cons b bs ih =>
    unfold insertSorted
    split
    · simp [List.mem_cons]
    · simp only [List.mem_cons, ih]
      tauto

theorem mem_sortNats (x : Nat) (l : List Nat) : x ∈ sortNats l ↔ x ∈ l := by
  induction l with
  | nil => simp [sortNats]
  | cons a as ih =>
    unfold sortNats
    rw [mem_insertSorted]
    simp [List.mem_cons, ih]

theorem mem_dedupFirst (x : Nat) (l : List Nat) : x ∈ dedupFirst l ↔ x ∈ l := by
  induction l with
  | nil => simp [dedupFirst]
  | cons a as ih =>
    unfold dedupFirst
    simp only [List.mem_cons, List.mem_filter, ih]
    by_cases hx : x = a
    · simp [hx]
    · simp [hx]

theorem nodup_dedupFirst (l : List Nat) : (dedupFirst l).Nodup := by
  induction l with
  | nil => simp [dedupFirst]
  | cons a as ih =>
    unfold dedupFirst
    rw [List.nodup_cons]
    constructor
    · intro hmem
      rw [List.mem_filter] at hmem
      simp at hmem
    · exact ih.filter _

/-! ## Lemmas: pending rows and the top-level query -/

theorem mem_pendingOf (db : DB) (u : Nat) (it : Item) :
    it ∈ pendingOf db u ↔ it ∈ db.items ∧ it.status = "pending" ∧ it.user_id = u := by
  unfold pendingOf
  rw [List.mem_filter]
  simp [Bool.and_eq_true, beq_iff_eq, and_assoc]

theorem mem_pendingRows (db : DB) (u : Nat) :
    u ∈ (db.items.filter (fun it => it.status == "pending")).map (fun it => it.user_id)
      ↔ pendingOf db u ≠ [] := by
  constructor
  · intro h
    rcases List.mem_map.mp h with ⟨it, hit, hid⟩
    rw [List.mem_filter] at hit
    intro hnil
    have hm : it ∈ pendingOf db u := by
      rw [mem_pendingOf]
      exact ⟨hit.1, by simpa using hit.2, hid⟩
    rw [hnil] at hm
    cases hm
  · intro h
    rcases List.exists_mem_of_ne_nil _ h with ⟨it, hm⟩
    rw [mem_pendingOf] at hm
    refine List.mem_map.mpr ⟨it, ?_, hm.2.2⟩
    rw [List.mem_filter]
    exact ⟨hm.1, by simp [hm.2.1]⟩

theorem fetchBatch_take (db : DB) (u : Nat) :
    fetchBatch db u = (pendingOf db u).take 50 := rfl

theorem fetchBatch_all (db : DB) (u : Nat) (h : (pendingOf db u).length ≤ 50) :
    fetchBatch db u = pendingOf db u := by
  rw [fetchBatch_take]
  exact List.take_of_length_le h

/-! ## Lemmas: evaluating the per-user step under fixed oracle outcomes -/

theorem updatedIds_eval (ai : List String → Option String → Option SummaryResult)
    (sF uF : Nat → Bool) (db : DB) (u : Nat) (res : SummaryResult)
    (hne : (fetchBatch db u).isEmpty = false)
    (hai : ai ((fetchBatch db u).map (fun it => it.content)) (lookupSettings db u) = some res)
    (hs : sF u = false) (hu : uF u = false) :
    updatedIds ai sF uF db u = (fetchBatch db u).map (fun it => it.id) := by
  unfold updatedIds
  simp [hne, hai, hs, hu]

theorem updatedIds_skip (ai : List String → Option String → Option SummaryResult)
    (sF uF : Nat → Bool) (db : DB) (u : Nat)
    (h : sF u = true ∨ uF u = true) :
    ∀ res, ai ((fetchBatch db u).map (fun it => it.content)) (lookupSettings db u) = some res →
      updatedIds ai sF uF db u = [] := by
  intro res hai
  unfold updatedIds
  rcases h with h | h <;> simp [hai, h]

theorem stepDelta_eval (ai : List String → Option String → Option SummaryResult)
    (sF : Nat → Bool) (db : DB) (u : Nat) (res : SummaryResult)
    (hne : (fetchBatch db u).isEmpty = false)
    (hai : ai ((fetchBatch db u).map (fun it => it.content)) (lookupSettings db u) = some res)
    (hs : sF u = false) :
    stepDelta ai sF db u = [⟨res.summaryText, (fetchBatch db u).map (fun it => it.id), u⟩] := by
  unfold stepDelta
  simp [hne, hai, hs]

theorem stepDelta_skip (ai : List String → Option String → Option SummaryResult)
    (sF : Nat → Bool) (db : DB) (u : Nat) (hs : sF u = true) :
    stepDelta ai sF db u = [] := by
  unfold stepDelta
  split
  · rfl
  · split
    · rfl
    · simp [hs]

theorem stepReport_eval (ai : List String → Option String → Option SummaryResult)
    (sF : Nat → Bool) (db : DB) (u : Nat) (res : SummaryResult)
    (hne : (fetchBatch db u).isEmpty = false)
    (hai : ai ((fetchBatch db u).map (fun it => it.content)) (lookupSettings db u) = some res)
    (hs : sF u = false) :
    stepReport ai sF db u = some ⟨u, (fetchBatch db u).length, res.summaryText⟩ := by
  unfold stepReport
  simp [hne, hai, hs]

theorem stepReport_skip (ai : List String → Option String → Option SummaryResult)
    (sF : Nat → Bool) (db : DB) (u : Nat) (hs : sF u = true) :
    stepReport ai sF db u = none := by
  unfold stepReport
  split
  · rfl
  · split
    · rfl
    · simp [hs]

/-! ## Lemmas: the top-level entry point with no workspaces to poll -/

theorem fetchSlackMessages_noWorkspaces (env : PollEnv) (fuel : Nat) (db : DB)
    (henv : env.workspaces = []) : fetchSlackMessages env fuel db = some db := by
  unfold fetchSlackMessages
  rw [henv]
  rfl

theorem runBatch_eq_runUsers (env : PollEnv) (fuel : Nat)
    (ai : List String → Option String → Option SummaryResult)
    (sF uF : Nat → Bool) (db : DB)
    (henv : env.workspaces = [])
    (hne : (db.items.filter (fun it => it.status == "pending")).map (fun it => it.user_id) ≠ []) :
    runBatchSummarization env fuel ai sF uF db =
      some ((runUsers ai sF uF (dedupFirst (sortNats
              ((db.items.filter (fun it => it.status == "pending")).map (fun it => it.user_id)))) db).1,
            .report (runUsers ai sF uF (dedupFirst (sortNats
              ((db.items.filter (fun it => it.status == "pending")).map (fun it => it.user_id)))) db).2) := by
  unfold runBatchSummarization
  rw [fetchSlackMessages_noWorkspaces env fuel db henv]
  have hie : ((db.items.filter (fun it => it.status == "pending")).map (fun it => it.user_id)).isEmpty = false := by
    cases h : (db.items.filter (fun it => it.status == "pending")).map (fun it => it.user_id) with
    | nil => exact absurd h hne
    | cons a l => rfl
  simp [hie]

/-! ## Claim C1 -/

/-- C1: For every user with n (1 ≤ n ≤ 50) pending items, when the AI
summarization call succeeds and both persistence writes succeed,
`runBatchSummarization` appends exactly one new Summary row for that user
whose `target_items` are exactly the ids of the fetched pending items,
sets exactly those items' status to `summarized` (and no other row of
that user), and includes the user in the returned report with processed
count n; a user with zero pending items gets no summary, no status
change, and no report entry.  (Stated with the store's primary-key
invariant and with no workspaces to poll, so the pending items at fetch
time are those of `db`.) -/
theorem batch_summarizes_each_user (env : PollEnv) (fuel : Nat)
    (ai : List String → Option String → Option SummaryResult)
    (sF uF : Nat → Bool) (db : DB) (u n : Nat) (res : SummaryResult)
    (henv : env.workspaces = [])
    (hids : IdsNodup db)
    (hn : n = (pendingOf db u).length) (h1 : 1 ≤ n) (h50 : n ≤ 50)
    (hai : ai ((pendingOf db u).map (fun it => it.content)) (lookupSettings db u) = some res)
    (hs : sF u = false) (hu : uF u = false) :
    ∃ after details,
      runBatchSummarization env fuel ai sF uF db = some (after, .report details)
      ∧ userSummaries after u
          = userSummaries db u ++ [⟨res.summaryText, (pendingOf db u).map (fun it => it.id), u⟩]
      ∧ userItems after u = (userItems db u).map
          (fun it => if it.status == "pending" then { it with status := "summarized" } else it)
      ∧ (⟨u, n, res.summaryText⟩ : UserReport) ∈ details
      ∧ (∀ v, pendingOf db v = [] →
          userSummaries after v = userSummaries db v
          ∧ userItems after v = userItems db v
          ∧ ∀ r ∈ details, r.userId ≠ v) := by
  have hfb : fetchBatch db u = pendingOf db u := fetchBatch_all db u (hn ▸ h50)
  have hpne : pendingOf db u ≠ [] := by
    intro hnil
    rw [hnil] at hn
    simp at hn
    omega
  have hu_rows : u ∈ (db.items.filter (fun it => it.status == "pending")).map (fun it => it.user_id) :=
    (mem_pendingRows db u).mpr hpne
  have hrne : (db.items.filter (fun it => it.status == "pending")).map (fun it => it.user_id) ≠ [] := by
    intro h
    rw [h] at hu_rows
    cases hu_rows
  rw [runBatch_eq_runUsers env fuel ai sF uF db henv hrne]
  have hmemL : u ∈ dedupFirst (sortNats
      ((db.items.filter (fun it => it.status == "pending")).map (fun it => it.user_id))) :=
    (mem_dedupFirst _ _).mpr ((mem_sortNats _ _).mpr hu_rows)
  have hndL := nodup_dedupFirst (sortNats
      ((db.items.filter (fun it => it.status == "pending")).map (fun it => it.user_id)))
  obtain ⟨mI, mS, mSome, _⟩ := runUsers_mem ai sF uF u _ db hids hndL hmemL
  have hne2 : (fetchBatch db u).isEmpty = false := by
    rw [hfb]
    cases h : pendingOf db u with
    | nil => exact absurd h hpne
    | cons a l => rfl
  have hai2 : ai ((fetchBatch db u).map (fun it => it.content)) (lookupSettings db u) = some res := by
    rw [hfb]
    exact hai
  have hD := stepDelta_eval ai sF db u res hne2 hai2 hs
  have hR := stepReport_eval ai sF db u res hne2 hai2 hs
  have hU := updatedIds_eval ai sF uF db u res hne2 hai2 hs hu
  refine ⟨_, _, rfl, ?_, ?_, ?_, ?_⟩
  · rw [mS, hD, hfb]
    simp
  · rw [mI]
    apply List.map_congr_left
    intro x hx
    unfold userItems at hx
    rw [List.mem_filter] at hx
    have hxu : x.user_id = u := by simpa using hx.2
    unfold stepMark
    rw [hU, hfb]
    cases hp : x.status == "pending" with
    | true =>
      have hxp : x ∈ pendingOf db u :=
        (mem_pendingOf db u x).mpr ⟨hx.1, by simpa using hp, hxu⟩
      have hcontains : ((pendingOf db u).map (fun it => it.id)).contains x.id = true := by
        simpa using List.mem_map.mpr ⟨x, hxp, rfl⟩
      rw [hcontains]
    | false =>
      have hnc : ((pendingOf db u).map (fun it => it.id)).contains x.id = false := by
        cases hc : ((pendingOf db u).map (fun it => it.id)).contains x.id with
        | false => rfl
        | true =>
          exfalso
          have hmem : x.id ∈ (pendingOf db u).map (fun it => it.id) := by simpa using hc
          rcases List.mem_map.mp hmem with ⟨y, hy, hyid⟩
          have hyp := (mem_pendingOf db u y).mp hy
          have hxy : x = y := List.inj_on_of_nodup_map hids hx.1 hyp.1 hyid.symm
          rw [hxy, hyp.2.1] at hp
          simp at hp
      rw [hnc]
  · have hrep := mSome ⟨u, (fetchBatch db u).length, res.summaryText⟩ hR
    rw [hfb] at hrep
    rw [hn]
    exact hrep
  · intro v hv
    have hvnot : v ∉ dedupFirst (sortNats
        ((db.items.filter (fun it => it.status == "pending")).map (fun it => it.user_id))) := by
      intro hmem
      have hvr : v ∈ (db.items.filter (fun it => it.status == "pending")).map (fun it => it.user_id) :=
        (mem_sortNats _ _).mp ((mem_dedupFirst _ _).mp hmem)
      exact ((mem_pendingRows db v).mp hvr) hv
    obtain ⟨fI, fS, _, _, fR⟩ := runUsers_frame ai sF uF v _ db hids hvnot
    exact ⟨fS, fI, fR⟩

theorem batch_summarizes_each_user_witness :
    ∃ after details,
      runBatchSummarization ⟨[], 0⟩ 0 (fun _ _ => some ⟨"S", []⟩)
          (fun _ => false) (fun _ => false) exDb = some (after, .report details)
      ∧ userSummaries after 7
          = userSummaries exDb 7 ++ [⟨"S", (pendingOf exDb 7).map (fun it => it.id), 7⟩]
      ∧ userItems after 7 = (userItems exDb 7).map
          (fun it => if it.status == "pending" then { it with status := "summarized" } else it)
      ∧ (⟨7, 3, "S"⟩ : UserReport) ∈ details
      ∧ (∀ v, pendingOf exDb v = [] →
          userSummaries after v = userSummaries exDb v
          ∧ userItems after v = userItems exDb v
          ∧ ∀ r ∈ details, r.userId ≠ v) :=
  batch_summarizes_each_user ⟨[], 0⟩ 0 (fun _ _ => some ⟨"S", []⟩)
    (fun _ => false) (fun _ => false) exDb 7 3 ⟨"S", []⟩ rfl (by decide) (by decide)
    (by decide) (by decide) rfl rfl rfl

/-! ## Claims C7 and C10 -/

/-- C7: If the status update to `summarized` fails after the Summary row
was persisted for a user, `runBatchSummarization` does not roll back: the
new Summary row (referencing the fetched item ids) remains, the user's
item rows are left unchanged, and the user still appears in the returned
report. -/
theorem summary_kept_on_update_failure (env : PollEnv) (fuel : Nat)
    (ai : List String → Option String → Option SummaryResult)
    (sF uF : Nat → Bool) (db : DB) (u : Nat) (res : SummaryResult)
    (henv : env.workspaces = [])
    (hids : IdsNodup db)
    (hbne : fetchBatch db u ≠ [])
    (hai : ai ((fetchBatch db u).map (fun it => it.content)) (lookupSettings db u) = some res)
    (hs : sF u = false) (hu : uF u = true) :
    ∃ after details,
      runBatchSummarization env fuel ai sF uF db = some (after, .report details)
      ∧ userSummaries after u
          = userSummaries db u ++ [⟨res.summaryText, (fetchBatch db u).map (fun it => it.id), u⟩]
      ∧ userItems after u = userItems db u
      ∧ (⟨u, (fetchBatch db u).length, res.summaryText⟩ : UserReport) ∈ details := by
  have hpne : pendingOf db u ≠ [] := by
    intro hnil
    apply hbne
    rw [fetchBatch_take, hnil]
    rfl
  have hu_rows : u ∈ (db.items.filter (fun it => it.status == "pending")).map (fun it => it.user_id) :=
    (mem_pendingRows db u).mpr hpne
  have hrne : (db.items.filter (fun it => it.status == "pending")).map (fun it => it.user_id) ≠ [] := by
    intro h
    rw [h] at hu_rows
    cases hu_rows
  rw [runBatch_eq_runUsers env fuel ai sF uF db henv hrne]
  have hmemL : u ∈ dedupFirst (sortNats
      ((db.items.filter (fun it => it.status == "pending")).map (fun it => it.user_id))) :=
    (mem_dedupFirst _ _).mpr ((mem_sortNats _ _).mpr hu_rows)
  have hndL := nodup_dedupFirst (sortNats
      ((db.items.filter (fun it => it.status == "pending")).map (fun it => it.user_id)))
  obtain ⟨mI, mS, mSome, _⟩ := runUsers_mem ai sF uF u _ db hids hndL hmemL
  have hne2 : (fetchBatch db u).isEmpty = false := by
    cases h : fetchBatch db u with
    | nil => exact absurd h hbne
    | cons a l => rfl
  have hD := stepDelta_eval ai sF db u res hne2 hai hs
  have hR := stepReport_eval ai sF db u res hne2 hai hs
  have hU := updatedIds_skip ai sF uF db u (Or.inr hu) res hai
  refine ⟨_, _, rfl, ?_, ?_, ?_⟩
  · rw [mS, hD]
    simp
  · rw [mI]
    have hfix : ∀ x ∈ userItems db u, stepMark ai sF uF db u x = x := by
      intro x _
      unfold stepMark
      rw [hU]
      rfl
    rw [List.map_congr_left hfix, List.map_id']
  · exact mSome _ hR

theorem summary_kept_on_update_failure_witness :
    ∃ after details,
      runBatchSummarization ⟨[], 0⟩ 0 (fun _ _ => some ⟨"S", []⟩)
          (fun _ => false) (fun _ => true) exDb = some (after, .report details)
      ∧ userSummaries after 7
          = userSummaries exDb 7 ++ [⟨"S", (fetchBatch exDb 7).map (fun it => it.id), 7⟩]
      ∧ userItems after 7 = userItems exDb 7
      ∧ (⟨7, (fetchBatch exDb 7).length, "S"⟩ : UserReport) ∈ details :=
  summary_kept_on_update_failure ⟨[], 0⟩ 0 (fun _ _ => some ⟨"S", []⟩)
    (fun _ => false) (fun _ => true) exDb 7 ⟨"S", []⟩ rfl (by decide) (by decide) rfl rfl rfl

/-- C10: If inserting the Summary row fails for a user,
`runBatchSummarization` skips that user before any status update: the
fetched items were pending and the user's item rows are unchanged (so
they stay pending for the next run), the user's summaries are unchanged,
and no entry of the returned report is for that user (so the user is not
counted in `totalUsersProcessed`, which is the length of `details`). -/
theorem user_skipped_on_save_failure (env : PollEnv) (fuel : Nat)
    (ai : List String → Option String → Option SummaryResult)
    (sF uF : Nat → Bool) (db : DB) (u : Nat) (res : SummaryResult)
    (henv : env.workspaces = [])
    (hids : IdsNodup db)
    (hbne : fetchBatch db u ≠ [])
    (hai : ai ((fetchBatch db u).map (fun it => it.content)) (lookupSettings db u) = some res)
    (hs : sF u = true) :
    ∃ after details,
      runBatchSummarization env fuel ai sF uF db = some (after, .report details)
      ∧ (∀ it ∈ fetchBatch db u, it.status = "pending")
      ∧ userItems after u = userItems db u
      ∧ userSummaries after u = userSummaries db u
      ∧ ∀ r ∈ details, r.userId ≠ u := by
  have hpne : pendingOf db u ≠ [] := by
    intro hnil
    apply hbne
    rw [fetchBatch_take, hnil]
    rfl
  have hu_rows : u ∈ (db.items.filter (fun it => it.status == "pending")).map (fun it => it.user_id) :=
    (mem_pendingRows db u).mpr hpne
  have hrne : (db.items.filter (fun it => it.status == "pending")).map (fun it => it.user_id) ≠ [] := by
    intro h
    rw [h] at hu_rows
    cases hu_rows
  rw [runBatch_eq_runUsers env fuel ai sF uF db henv hrne]
  have hmemL : u ∈ dedupFirst (sortNats
      ((db.items.filter (fun it => it.status == "pending")).map (fun it => it.user_id))) :=
    (mem_dedupFirst _ _).mpr ((mem_sortNats _ _).mpr hu_rows)
  have hndL := nodup_dedupFirst (sortNats
      ((db.items.filter (fun it => it.status == "pending")).map (fun it => it.user_id)))
  obtain ⟨mI, mS, _, mNone⟩ := runUsers_mem ai sF uF u _ db hids hndL hmemL
  have hU := updatedIds_skip ai sF uF db u (Or.inl hs) res hai
  refine ⟨_, _, rfl, ?_, ?_, ?_, ?_⟩
  · intro it hit
    exact (mem_fetchBatch db u it hit).2.1
  · rw [mI]
    have hfix : ∀ x ∈ userItems db u, stepMark ai sF uF db u x = x := by
      intro x _
      unfold stepMark
      rw [hU]
      rfl
    rw [List.map_congr_left hfix, List.map_id']
  · rw [mS, stepDelta_skip ai sF db u hs]
    simp
  · exact mNone (stepReport_skip ai sF db u hs)

theorem user_skipped_on_save_failure_witness :
    ∃ after details,
      runBatchSummarization ⟨[], 0⟩ 0 (fun _ _ => some ⟨"S", []⟩)
          (fun _ => true) (fun _ => false) exDb = some (after, .report details)
      ∧ (∀ it ∈ fetchBatch exDb 7, it.status = "pending")
      ∧ userItems after 7 = userItems exDb 7
      ∧ userSummaries after 7 = userSummaries exDb 7
      ∧ ∀ r ∈ details, r.userId ≠ 7 :=
  user_skipped_on_save_failure ⟨[], 0⟩ 0 (fun _ _ => some ⟨"S", []⟩)
    (fun _ => true) (fun _ => false) exDb 7 ⟨"S", []⟩ rfl (by decide) (by decide) rfl rfl

/-! ## Claim C3 -/

theorem stepDelta_targets (ai : List String → Option String → Option SummaryResult)
    (sF : Nat → Bool) (db : DB) (u : Nat) (s : Summary) (h : s ∈ stepDelta ai sF db u) :
    s.target_items = (fetchBatch db u).map (fun it => it.id) := by
  unfold stepDelta at h
  split at h
  · cases h
  · split at h
    · cases h
    · split at h
      · cases h
      · simp only [List.mem_singleton] at h
        subst h
        rfl

/-- C3: For all users A ≠ B (under the items table's primary-key
invariant), an item owned by A is never included in the fetch batch used
for B's summarization, every batch item is B's, the Summary rows B's
processing step appends never reference A's item, and A's rows are
untouched by B's processing step: the pending-item query and the status
update of `runBatchSummarization`'s loop body are scoped to the owning
user. -/
theorem batch_user_isolation (ai : List String → Option String → Option SummaryResult)
    (sF uF : Nat → Bool) (db : DB) (A B : Nat) (x : Item)
    (hids : IdsNodup db) (hAB : A ≠ B) (hx : x ∈ db.items) (hxu : x.user_id = A) :
    x ∉ fetchBatch db B
    ∧ (∀ it ∈ fetchBatch db B, it.user_id = B)
    ∧ (processUser ai sF uF db B).1.summaries = db.summaries ++ stepDelta ai sF db B
    ∧ (∀ s ∈ stepDelta ai sF db B, s.user_id = B ∧ x.id ∉ s.target_items)
    ∧ userItems (processUser ai sF uF db B).1 A = userItems db A := by
  refine ⟨?_, ?_, ?_, ?_, ?_⟩
  · intro hmem
    exact hAB (hxu.symm.trans (mem_fetchBatch db B x hmem).2.2)
  · intro it hit
    exact (mem_fetchBatch db B it hit).2.2
  · rw [processUser_eq]
  · intro s hs
    refine ⟨stepDelta_user ai sF db B s hs, ?_⟩
    rw [stepDelta_targets ai sF db B s hs]
    intro hmem
    rcases List.mem_map.mp hmem with ⟨y, hy, hyid⟩
    have hyp := mem_fetchBatch db B y hy
    have hxy : x = y := List.inj_on_of_nodup_map hids hx hyp.1 hyid.symm
    exact hAB ((hxu.symm.trans (congrArg Item.user_id hxy)).trans hyp.2.2)
  · exact (processUser_frame ai sF uF db A B hids hAB).1

theorem batch_user_isolation_witness :
    (⟨4, "web", "old link", none, "done", 0, 8⟩ : Item) ∉ fetchBatch exDb 7
    ∧ (∀ it ∈ fetchBatch exDb 7, it.user_id = 7)
    ∧ (processUser (fun _ _ => some ⟨"S", []⟩) (fun _ => false) (fun _ => false) exDb 7).1.summaries
        = exDb.summaries ++ stepDelta (fun _ _ => some ⟨"S", []⟩) (fun _ => false) exDb 7
    ∧ (∀ s ∈ stepDelta (fun _ _ => some ⟨"S", []⟩) (fun _ => false) exDb 7,
        s.user_id = 7 ∧ (4 : Nat) ∉ s.target_items)
    ∧ userItems (processUser (fun _ _ => some ⟨"S", []⟩)
        (fun _ => false) (fun _ => false) exDb 7).1 8 = userItems exDb 8 :=
  batch_user_isolation (fun _ _ => some ⟨"S", []⟩) (fun _ => false) (fun _ => false)
    exDb 8 7 ⟨4, "web", "old link", none, "done", 0, 8⟩
    (by decide) (by decide) (by decide) rfl

/-! ## Claim C2 -/

theorem shouldDelete_iff (t : Nat) (it : Item) :
    shouldDelete t it = true ↔
      (it.created_at < t
        ∧ (it.status = "archived" ∨ it.status = "done" ∨ it.status = "summarized")
        ∧ it.source_type ≠ "web") := by
  unfold shouldDelete
  simp only [Bool.and_eq_true, decide_eq_true_eq, bne_iff_ne]
  constructor
  · rintro ⟨⟨h1, h2⟩, h3⟩
    refine ⟨h1, ?_, h3⟩
    have hm : it.status ∈ ["archived", "done", "summarized"] := by simpa using h2
    simpa using hm
  · rintro ⟨h1, h2, h3⟩
    refine ⟨⟨h1, ?_⟩, h3⟩
    have hm : it.status ∈ ["archived", "done", "summarized"] := by
      simp only [List.mem_cons, List.mem_singleton]
      tauto
    simpa using hm

/-- C2: The Retention Sweeper deletes an item iff its creation time is
older than the 7-day threshold AND its status is one of {archived, done,
summarized} AND its source kind is not `web`; in particular a `web` item
is never deleted regardless of age or status, and a `pending` item is
never deleted regardless of age. -/
theorem retention_delete_characterization (now : Nat) (db : DB) (it : Item) :
    (it ∈ (runRetentionPolicy now db).after.items ↔
      it ∈ db.items ∧ ¬(it.created_at < now - 7 * 86400
        ∧ (it.status = "archived" ∨ it.status = "done" ∨ it.status = "summarized")
        ∧ it.source_type ≠ "web"))
    ∧ (it.source_type = "web" →
        (it ∈ (runRetentionPolicy now db).after.items ↔ it ∈ db.items))
    ∧ (it.status = "pending" →
        (it ∈ (runRetentionPolicy now db).after.items ↔ it ∈ db.items)) := by
  have hchar : it ∈ (runRetentionPolicy now db).after.items ↔
      it ∈ db.items ∧ ¬(it.created_at < now - 7 * 86400
        ∧ (it.status = "archived" ∨ it.status = "done" ∨ it.status = "summarized")
        ∧ it.source_type ≠ "web") := by
    unfold runRetentionPolicy
    rw [List.mem_filter]
    constructor
    · rintro ⟨h1, h2⟩
      refine ⟨h1, fun hc => ?_⟩
      rw [Bool.not_eq_true'] at h2
      rw [← shouldDelete_iff (now - 7 * 86400) it] at hc
      rw [h2] at hc
      cases hc
    · rintro ⟨h1, h2⟩
      refine ⟨h1, ?_⟩
      rw [Bool.not_eq_true']
      cases hsd : shouldDelete (now - 7 * 86400) it with
      | false => rfl
      | true => exact absurd ((shouldDelete_iff (now - 7 * 86400) it).mp hsd) h2
  refine ⟨hchar, ?_, ?_⟩
  · intro hw
    rw [hchar]
    constructor
    · exact And.left
    · intro h
      exact ⟨h, fun hc => hc.2.2 hw⟩
  · intro hp
    rw [hchar]
    constructor
    · exact And.left
    · intro h
      refine ⟨h, fun hc => ?_⟩
      rcases hc.2.1 with h1 | h1 | h1 <;> rw [hp] at h1 <;> exact absurd h1 (by decide)

theorem retention_delete_characterization_witness :
    ((⟨2, "web", "saved link", none, "done", 0, 7⟩ : Item)
        ∈ (runRetentionPolicy (10 * 86400) exRetDb).after.items)
    ∧ ((⟨3, "slack", "old backlog", none, "pending", 0, 7⟩ : Item)
        ∈ (runRetentionPolicy (10 * 86400) exRetDb).after.items)
    ∧ ¬ ((⟨1, "slack", "done msg", none, "done", 0, 7⟩ : Item)
        ∈ (runRetentionPolicy (10 * 86400) exRetDb).after.items) :=
  ⟨((retention_delete_characterization (10 * 86400) exRetDb _).2.1 rfl).mpr (by decide),
   ((retention_delete_characterization (10 * 86400) exRetDb _).2.2 rfl).mpr (by decide),
   fun h => (((retention_delete_characterization (10 * 86400) exRetDb _).1.mp h).2
     (by refine ⟨by decide, by decide, by decide⟩))⟩

/-! ## Claim C8 -/

/-- C8 (code bug): `runRetentionPolicy` deletes rows and logs the deleted
count, but returns no value on any path (undefined), so the contract
"sweep() returns the count of rows deleted" fails: at this store it
deletes exactly one row, the logged count is 1, yet the returned value is
`none` — the `/cron/retention` handler serializes `count: undefined`. -/
theorem retention_returns_no_count :
    exRetDb.items.length - (runRetentionPolicy (10 * 86400) exRetDb).after.items.length = 1
    ∧ (runRetentionPolicy (10 * 86400) exRetDb).loggedCount = 1
    ∧ (runRetentionPolicy (10 * 86400) exRetDb).returned = none := by decide

/-! ## Claim C9 -/

/-- C9 (counterexample): the per-user fetch requests no ordering, so the
batch follows the store's row order; here user 7's fetched batch lists
creation times [100, 50], which is not oldest-first. -/
theorem fetch_batch_unordered_cex :
    (fetchBatch exDb9 7).map (fun it => it.created_at) = [100, 50]
    ∧ ¬ List.Sorted (· ≤ ·) ((fetchBatch exDb9 7).map (fun it => it.created_at)) := by
  constructor
  · decide
  · decide

/-- C9 (amended): for each user the fetched batch consists of up to 50 of
that user's pending items in the store's row order (a sublist of the
items table); no creation-time ordering is requested, so oldest-first is
not guaranteed. -/
theorem fetch_batch_cap_scope_order (db : DB) (u : Nat) :
    (fetchBatch db u).length ≤ 50
    ∧ List.Sublist (fetchBatch db u) db.items
    ∧ ∀ it ∈ fetchBatch db u, it.status = "pending" ∧ it.user_id = u := by
  refine ⟨?_, ?_, ?_⟩
  · unfold fetchBatch
    exact List.length_take_le _ _
  · unfold fetchBatch
    exact (List.take_sublist _ _).trans (List.filter_sublist _)
  · intro it hit
    exact ⟨(mem_fetchBatch db u it hit).2.1, (mem_fetchBatch db u it hit).2.2⟩

theorem fetch_batch_cap_scope_order_witness :
    (fetchBatch exDb9 7).length ≤ 50
    ∧ ((⟨1, "slack", "newer", none, "pending", 100, 7⟩ : Item).status = "pending"
        ∧ (⟨1, "slack", "newer", none, "pending", 100, 7⟩ : Item).user_id = 7) :=
  ⟨(fetch_batch_cap_scope_order exDb9 7).1,
   (fetch_batch_cap_scope_order exDb9 7).2.2 _ (by decide)⟩

/-! ## Claim C6 -/

/-- C6 (code bug): on HTTP 429 the channel pagination loop sleeps and
then `continue`s, re-issuing the same request instead of giving up; under
a provider that returns 429 on every request the `while (true)` loop
never exits — for every iteration bound the loop is still running. -/
theorem pagination_never_ends_on_429 (fuel k : Nat) (cursor : Option String)
    (acc : List Channel) (sleeps : List Nat) :
    (paginateChannels (fun _ => ChanResp.rateLimited none) fuel k cursor acc sleeps).1 = none := by
  induction fuel generalizing k sleeps with
  | zero => rfl
  | succ n ih => exact ih (k + 1) (sleeps ++ [2000])

/-! ## Claim C4 -/

/-- C4 (counterexample): a provider response that parses as JSON but is
not the fixed two-field summary structure (here the empty object) is not
rejected: `generateSummary` returns it as a non-null result, so a
malformed-but-parseable response yields a garbage value instead of a
failure. -/
theorem generateSummary_garbage_cex :
    (generateSummary (some "sk-test") (AiResponse.json (Js.obj [])) ["deploy failed"] none).1 ≠ none
    ∧ specSummaryShape (Js.obj []) = false := by
  constructor
  · intro h
    simp [generateSummary] at h
  · rfl

/-- C4 (amended): the AI client fails closed for absent credentials (no
network I/O) and for empty, missing, or unparseable responses; but a
response that parses as JSON is returned without shape validation.  On a
failed (`none`) AI result, `runBatchSummarization`'s loop skips the user
with no state change and continues with the remaining users. -/
theorem ai_client_fail_closed_amended
    (key : String) (resp : AiResponse) (msgs : List String) (ci : Option String) (j : Js)
    (c : Option String) (om tone sc q : String)
    (ai : List String → Option String → Option SummaryResult)
    (sF uF : Nat → Bool) (db : DB) (u : Nat) (rest : List Nat)
    (hai : ai ((fetchBatch db u).map (fun it => it.content)) (lookupSettings db u) = none) :
    generateSummary none resp msgs ci = (none, false)
    ∧ generateReplyDraft none c om tone = (none, false)
    ∧ askAboutSummary none c sc q = (none, false)
    ∧ generateSummary (some key) .fetchError msgs ci = (none, true)
    ∧ generateSummary (some key) .noContent msgs ci = (none, true)
    ∧ generateSummary (some key) .badJson msgs ci = (none, true)
    ∧ generateSummary (some key) (.json j) msgs ci = (some j, true)
    ∧ processUser ai sF uF db u = (db, none)
    ∧ runUsers ai sF uF (u :: rest) db = runUsers ai sF uF rest db := by
  have hstep : processUser ai sF uF db u = (db, none) := by
    unfold processUser
    cases he : (fetchBatch db u).isEmpty with
    | true => simp [he]
    | false => simp [he, hai]
  refine ⟨rfl, rfl, rfl, rfl, rfl, rfl, rfl, hstep, ?_⟩
  rw [runUsers_cons, hstep]
  simp

theorem ai_client_fail_closed_amended_witness :
    generateSummary none AiResponse.noContent ["m"] none = (none, false)
    ∧ generateReplyDraft none none "m" "approve" = (none, false)
    ∧ askAboutSummary none none "ctx" "q" = (none, false)
    ∧ generateSummary (some "k") .fetchError ["m"] none = (none, true)
    ∧ generateSummary (some "k") .noContent ["m"] none = (none, true)
    ∧ generateSummary (some "k") .badJson ["m"] none = (none, true)
    ∧ generateSummary (some "k") (.json Js.null) ["m"] none = (some Js.null, true)
    ∧ processUser (fun _ _ => none) (fun _ => false) (fun _ => false) exDb 7 = (exDb, none)
    ∧ runUsers (fun _ _ => none) (fun _ => false) (fun _ => false) [7, 8] exDb
        = runUsers (fun _ _ => none) (fun _ => false) (fun _ => false) [8] exDb :=
  ai_client_fail_closed_amended "k" AiResponse.noContent ["m"] none Js.null none
    "m" "approve" "ctx" "q" (fun _ _ => none) (fun _ => false) (fun _ => false) exDb 7 [8] rfl

/-! ## Lemmas: poller deduplication -/

theorem keyMatches_iff (c t : String) (it : Item) :
    keyMatches c t it = true ↔ keyOf it = some (c, t) := by
  unfold keyMatches keyOf
  cases it.meta with
  | none => simp
  | some m => simp [Bool.and_eq_true, beq_iff_eq, Prod.ext_iff]

theorem countKey_pos (db : DB) (c t : String) :
    0 < countKey db c t ↔ (c, t) ∈ db.items.filterMap keyOf := by
  unfold countKey
  rw [List.length_pos_iff_exists_mem]
  constructor
  · rintro ⟨it, hit⟩
    rw [List.mem_filter] at hit
    exact List.mem_filterMap.mpr ⟨it, hit.1, (keyMatches_iff c t it).mp hit.2⟩
  · intro h
    rcases List.mem_filterMap.mp h with ⟨it, hit, hk⟩
    exact ⟨it, List.mem_filter.mpr ⟨hit, (keyMatches_iff c t it).mpr hk⟩⟩

theorem filter_key_len_le_one (c t : String) (l : List Item)
    (h : (l.filterMap keyOf).Nodup) : (l.filter (keyMatches c t)).length ≤ 1 := by
  induction l with
  | nil => simp
  | cons a l ih =>
    cases hk : keyOf a with
    | none =>
      have h2 : (l.filterMap keyOf).Nodup := by
        rw [List.filterMap_cons, hk] at h
        exact h
      have hkm : keyMatches c t a = false := by
        cases hkm2 : keyMatches c t a with
        | false => rfl
        | true =>
          rw [keyMatches_iff, hk] at hkm2
          cases hkm2
      simp only [List.filter_cons, hkm]
      exact ih h2
    | some k =>
      rw [List.filterMap_cons, hk, List.nodup_cons] at h
      cases hkm : keyMatches c t a with
      | false =>
        simp only [List.filter_cons, hkm]
        exact ih h.2
      | true =>
        have hkt : k = (c, t) := by
          rw [keyMatches_iff, hk] at hkm
          exact Option.some_injective _ hkm.symm |>.symm
        have hzero : (l.filter (keyMatches c t)).length = 0 := by
          cases hlz : (l.filter (keyMatches c t)).length with
          | zero => rfl
          | succ n =>
            exfalso
            have hpos : 0 < (l.filter (keyMatches c t)).length := by omega
            rcases List.length_pos_iff_exists_mem.mp hpos with ⟨it, hit⟩
            rw [List.mem_filter] at hit
            have hmem : (c, t) ∈ l.filterMap keyOf :=
              List.mem_filterMap.mpr ⟨it, hit.1, (keyMatches_iff c t it).mp hit.2⟩
            exact h.1 (hkt ▸ hmem)
        simp [List.filter_cons, hkm, hzero]

theorem countKey_le_one (db : DB) (h : KeysUnique db) (c t : String) :
    countKey db c t ≤ 1 := by
  unfold countKey
  exact filter_key_len_le_one c t db.items h

theorem accepts_true (um : List SlackUser) (msg : Msg) (h : accepts um msg = true) :
    msg.subtype.isSome = false ∧ msg.bot_id.isSome = false
    ∧ ∃ mu, msg.user = some mu
      ∧ (match um.find? (fun su => su.id == mu) with
          | some su => su.is_bot | none => false) = false := by
  unfold accepts at h
  simp only [Bool.and_eq_true, Bool.not_eq_true'] at h
  obtain ⟨⟨⟨h1, h2⟩, h3⟩, h4⟩ := h
  refine ⟨h1, h3, ?_⟩
  cases hu : msg.user with
  | none => rw [hu] at h2; cases h2
  | some mu =>
    refine ⟨mu, rfl, ?_⟩
    rw [hu] at h4
    simpa using h4

theorem processMessage_of_count_one (um : List SlackUser) (team : String) (wsU now : Nat)
    (ch : Channel) (db : DB) (msg : Msg) (h : countKey db ch.id msg.ts = 1) :
    processMessage um team wsU now ch db msg = db := by
  unfold processMessage
  cases hs : msg.subtype.isSome with
  | true => simp [hs]
  | false =>
    cases hu : msg.user with
    | none => simp [hs, hu]
    | some mu =>
      cases hb : msg.bot_id.isSome with
      | true => simp [hs, hu, hb]
      | false =>
        have hcc : (countKey db ch.id msg.ts == 1) = true := by simp [h]
        simp [hs, hu, hb, hcc]

theorem processMessage_rejected (um : List SlackUser) (team : String) (wsU now : Nat)
    (ch : Channel) (db : DB) (msg : Msg) (h : accepts um msg = false) :
    processMessage um team wsU now ch db msg = db := by
  unfold processMessage
  unfold accepts at h
  cases hs : msg.subtype.isSome with
  | true => simp [hs]
  | false =>
    cases hu : msg.user with
    | none => simp [hs, hu]
    | some mu =>
      cases hb : msg.bot_id.isSome with
      | true => simp [hs, hu, hb]
      | false =>
        rw [hs, hu, hb] at h
        simp only [Bool.not_false, Bool.true_and, Option.isSome_some, Option.some_bind] at h
        have hbot : (match um.find? (fun su => su.id == mu) with
            | some su => su.is_bot | none => false) = true := by
          cases hm : (match um.find? (fun su => su.id == mu) with
              | some su => su.is_bot | none => false) with
          | true => rfl
          | false => rw [hm] at h; simp at h
        simp [hs, hu, hb, hbot]

theorem processMessage_insert (um : List SlackUser) (team : String) (wsU now : Nat)
    (ch : Channel) (db : DB) (msg : Msg)
    (hacc : accepts um msg = true) (hc : countKey db ch.id msg.ts ≠ 1) :
    processMessage um team wsU now ch db msg
      = { db with items := db.items ++ [newItemOf um team wsU now ch db msg],
                  nextId := db.nextId + 1 } := by
  obtain ⟨h1, h2, mu, h3, h4⟩ := accepts_true um msg hacc
  have hcc : (countKey db ch.id msg.ts == 1) = false := by
    cases hcc2 : (countKey db ch.id msg.ts == 1) with
    | true => exact absurd (by simpa using hcc2) hc
    | false => rfl
  unfold processMessage
  simp [h1, h3, h2, h4, hcc]

theorem countKey_append_item (db : DB) (x : Item) (c t : String) :
    countKey { db with items := db.items ++ [x], nextId := db.nextId + 1 } c t
      = countKey db c t + (if keyMatches c t x then 1 else 0) := by
  unfold countKey
  simp only [List.filter_append, List.length_append]
  congr 1
  simp only [List.filter_cons, List.filter_nil]
  split <;> rfl

theorem keyMatches_newItemOf (um : List SlackUser) (team : String) (wsU now : Nat)
    (ch : Channel) (db : DB) (msg : Msg) :
    keyMatches ch.id msg.ts (newItemOf um team wsU now ch db msg) = true := by
  unfold keyMatches newItemOf
  simp

theorem countKey_mono_processMessage (um : List SlackUser) (team : String) (wsU now : Nat)
    (ch : Channel) (db : DB) (msg : Msg) (c t : String) :
    countKey db c t ≤ countKey (processMessage um team wsU now ch db msg) c t := by
  by_cases hacc : accepts um msg = true
  · by_cases hc : countKey db ch.id msg.ts = 1
    · rw [processMessage_of_count_one um team wsU now ch db msg hc]
    · rw [processMessage_insert um team wsU now ch db msg hacc hc, countKey_append_item]
      exact Nat.le_add_right _ _
  · rw [processMessage_rejected um team wsU now ch db msg
      (Bool.eq_false_iff.mpr hacc)]

theorem keysUnique_processMessage (um : List SlackUser) (team : String) (wsU now : Nat)
    (ch : Channel) (db : DB) (msg : Msg) (h : KeysUnique db) :
    KeysUnique (processMessage um team wsU now ch db msg) := by
  by_cases hacc : accepts um msg = true
  · by_cases hc : countKey db ch.id msg.ts = 1
    · rw [processMessage_of_count_one um team wsU now ch db msg hc]
      exact h
    · rw [processMessage_insert um team wsU now ch db msg hacc hc]
      unfold KeysUnique at h ⊢
      have hknew : keyOf (newItemOf um team wsU now ch db msg) = some (ch.id, msg.ts) := rfl
      have hnotmem : (ch.id, msg.ts) ∉ db.items.filterMap keyOf := by
        intro hm
        have hp := (countKey_pos db ch.id msg.ts).mpr hm
        have hle := countKey_le_one db h ch.id msg.ts
        omega
      show ((db.items ++ [newItemOf um team wsU now ch db msg]).filterMap keyOf).Nodup
      rw [List.filterMap_append]
      have hsing : ([newItemOf um team wsU now ch db msg].filterMap keyOf)
          = [(ch.id, msg.ts)] := by
        simp [List.filterMap_cons, hknew]
      rw [hsing]
      simp [List.nodup_append, h, hnotmem]
  · rw [processMessage_rejected um team wsU now ch db msg (Bool.eq_false_iff.mpr hacc)]
    exact h

theorem countKey_pos_processMessage (um : List SlackUser) (team : String) (wsU now : Nat)
    (ch : Channel) (db : DB) (msg : Msg) (hacc : accepts um msg = true) :
    1 ≤ countKey (processMessage um team wsU now ch db msg) ch.id msg.ts := by
  by_cases hc : countKey db ch.id msg.ts = 1
  · rw [processMessage_of_count_one um team wsU now ch db msg hc, hc]
  · rw [processMessage_insert um team wsU now ch db msg hacc hc, countKey_append_item,
      keyMatches_newItemOf]
    simp

theorem processChannelMessages_cons (um : List SlackUser) (team : String) (wsU now : Nat)
    (ch : Channel) (db : DB) (m : Msg) (ms : List Msg) :
    processChannelMessages um team wsU now ch db (m :: ms)
      = processChannelMessages um team wsU now ch (processMessage um team wsU now ch db m) ms := rfl

theorem keysUnique_run (um : List SlackUser) (team : String) (wsU now : Nat)
    (ch : Channel) (msgs : List Msg) :
    ∀ db : DB, KeysUnique db → KeysUnique (processChannelMessages um team wsU now ch db msgs) := by
  induction msgs with
  | nil => intro db h; exact h
  | cons m ms ih =>
    intro db h
    rw [processChannelMessages_cons]
    exact ih _ (keysUnique_processMessage um team wsU now ch db m h)

theorem countKey_mono_run (um : List SlackUser) (team : String) (wsU now : Nat)
    (ch : Channel) (msgs : List Msg) (c t : String) :
    ∀ db : DB, countKey db c t ≤ countKey (processChannelMessages um team wsU now ch db msgs) c t := by
  induction msgs with
  | nil => intro db; exact Nat.le_refl _
  | cons m ms ih =>
    intro db
    rw [processChannelMessages_cons]
    exact (countKey_mono_processMessage um team wsU now ch db m c t).trans (ih _)

theorem countKey_pos_run (um : List SlackUser) (team : String) (wsU now : Nat)
    (ch : Channel) (msgs : List Msg) :
    ∀ db : DB, ∀ m ∈ msgs, accepts um m = true →
      1 ≤ countKey (processChannelMessages um team wsU now ch db msgs) ch.id m.ts := by
  induction msgs with
  | nil => intro db m hm; cases hm
  | cons m0 ms ih =>
    intro db m hm hacc
    rcases List.mem_cons.mp hm with heq | hm2
    · subst heq
      rw [processChannelMessages_cons]
      exact (countKey_pos_processMessage um team wsU now ch db m hacc).trans
        (countKey_mono_run um team wsU now ch ms ch.id m.ts _)
    · rw [processChannelMessages_cons]
      exact ih _ m hm2 hacc

theorem run_stable (um : List SlackUser) (team : String) (wsU now : Nat)
    (ch : Channel) (msgs : List Msg) :
    ∀ db : DB, KeysUnique db →
      (∀ m ∈ msgs, accepts um m = true → 1 ≤ countKey db ch.id m.ts) →
      processChannelMessages um team wsU now ch db msgs = db := by
  induction msgs with
  | nil => intro db _ _; rfl
  | cons m0 ms ih =>
    intro db hU hall
    rw [processChannelMessages_cons]
    by_cases hacc : accepts um m0 = true
    · have h1 : 1 ≤ countKey db ch.id m0.ts := hall m0 (List.mem_cons_self m0 ms) hacc
      have hle := countKey_le_one db hU ch.id m0.ts
      have heq : countKey db ch.id m0.ts = 1 := by omega
      rw [processMessage_of_count_one um team wsU now ch db m0 heq]
      exact ih db hU (fun m hm hacc2 => hall m (List.mem_cons_of_mem m0 hm) hacc2)
    · rw [processMessage_rejected um team wsU now ch db m0 (Bool.eq_false_iff.mpr hacc)]
      exact ih db hU (fun m hm hacc2 => hall m (List.mem_cons_of_mem m0 hm) hacc2)

/-! ## Claim C5 -/

/-- C5: Polling is deduplicating and idempotent.  Under the store
invariant that no two items share a (channel id, source timestamp) pair:
an accepted message whose key is already present (one matching row) is
not inserted, one whose key is absent appends exactly the new row; and
re-processing the same channel history a second time is a no-op, so in
particular the item count is unchanged after the second poll. -/
theorem poller_dedup_idempotent (um : List SlackUser) (team : String) (wsU now : Nat)
    (ch : Channel) (db : DB) (msgs : List Msg) (msg : Msg)
    (hU : KeysUnique db) :
    (accepts um msg = true →
      (countKey db ch.id msg.ts = 1 → processMessage um team wsU now ch db msg = db)
      ∧ (countKey db ch.id msg.ts = 0 →
          processMessage um team wsU now ch db msg
            = { db with items := db.items ++ [newItemOf um team wsU now ch db msg],
                        nextId := db.nextId + 1 }))
    ∧ processChannelMessages um team wsU now ch
        (processChannelMessages um team wsU now ch db msgs) msgs
        = processChannelMessages um team wsU now ch db msgs
    ∧ (processChannelMessages um team wsU now ch
        (processChannelMessages um team wsU now ch db msgs) msgs).items.length
        = (processChannelMessages um team wsU now ch db msgs).items.length := by
  have hidem : processChannelMessages um team wsU now ch
      (processChannelMessages um team wsU now ch db msgs) msgs
      = processChannelMessages um team wsU now ch db msgs :=
    run_stable um team wsU now ch msgs _
      (keysUnique_run um team wsU now ch msgs db hU)
      (fun m hm hacc => countKey_pos_run um team wsU now ch msgs db m hm hacc)
  refine ⟨?_, hidem, congrArg (fun d => d.items.length) hidem⟩
  intro hacc
  refine ⟨processMessage_of_count_one um team wsU now ch db msg, ?_⟩
  intro h0
  exact processMessage_insert um team wsU now ch db msg hacc (by omega)

theorem poller_dedup_idempotent_witness :
    (accepts [] ⟨some "U1", "hello", "111.1", none, none⟩ = true →
      (countKey emptyDb "C1" "111.1" = 1 →
        processMessage [] "T" 9 5 ⟨"C1", none, false⟩ emptyDb
          ⟨some "U1", "hello", "111.1", none, none⟩ = emptyDb)
      ∧ (countKey emptyDb "C1" "111.1" = 0 →
          processMessage [] "T" 9 5 ⟨"C1", none, false⟩ emptyDb
            ⟨some "U1", "hello", "111.1", none, none⟩
            = { emptyDb with
                items := emptyDb.items ++ [newItemOf [] "T" 9 5 ⟨"C1", none, false⟩ emptyDb
                  ⟨some "U1", "hello", "111.1", none, none⟩],
                nextId := emptyDb.nextId + 1 }))
    ∧ processChannelMessages [] "T" 9 5 ⟨"C1", none, false⟩
        (processChannelMessages [] "T" 9 5 ⟨"C1", none, false⟩ emptyDb
          [⟨some "U1", "hello", "111.1", none, none⟩])
        [⟨some "U1", "hello", "111.1", none, none⟩]
        = processChannelMessages [] "T" 9 5 ⟨"C1", none, false⟩ emptyDb
            [⟨some "U1", "hello", "111.1", none, none⟩]
    ∧ (processChannelMessages [] "T" 9 5 ⟨"C1", none, false⟩
        (processChannelMessages [] "T" 9 5 ⟨"C1", none, false⟩ emptyDb
          [⟨some "U1", "hello", "111.1", none, none⟩])
        [⟨some "U1", "hello", "111.1", none, none⟩]).items.length
        = (processChannelMessages [] "T" 9 5 ⟨"C1", none, false⟩ emptyDb
            [⟨some "U1", "hello", "111.1", none, none⟩]).items.length :=
  poller_dedup_idempotent [] "T" 9 5 ⟨"C1", none, false⟩ emptyDb
    [⟨some "U1", "hello", "111.1", none, none⟩] ⟨some "U1", "hello", "111.1", none, none⟩
    (by decide)

end DeepBuffer
